import Mathlib

/-!
Verification of the CD Key Store web application (`app.py`).

The application is a Flask storefront over four SQLAlchemy tables
(User, Product, Key, Purchase).  We embed the database as explicit
lists of records (kept in insertion order, as `query.first()` and
autoincrement primary keys induce), the per-request session cookie as
a small record, and every mutating route handler as a pure function
from database-and-session to database-and-session plus the rendered
response and any outbound SMTP message.  External randomness
(`uuid.uuid4()`) is modelled as a fresh nonce drawn from a counter
carried in the database state, and autoincrement primary keys as
counters likewise.
-/

namespace CDKeyStore

/-- A row of the `user` table: `User(db.Model)` in app.py. -/
structure User where
  id : Nat
  username : String
  password : String
  email : String
  is_admin : Bool
deriving DecidableEq

/-- A nonnegative dyadic rational `m / 2 ^ e`: the exact value of an IEEE-754
binary64 float, which is how the SQL `Float` column `Product.price` is stored
and how Python computes `product.price * 100`. -/
structure Dyadic where
  m : Nat
  e : Nat
deriving DecidableEq

/-- The exact rational value of a dyadic. -/
def Dyadic.toRat (d : Dyadic) : ℚ := (d.m : ℚ) / 2 ^ d.e

/-- A row of the `product` table.  `price` is the stored SQL `Float` column
(an IEEE-754 double, represented exactly).  `stock` is an `Int`: the schema
declares a plain `Integer` and `success` decrements it unconditionally, so
nothing in the code forbids negative values. -/
structure Product where
  id : Nat
  name : String
  description : String
  price : Dyadic
  stock : Int
deriving DecidableEq

/-- A row of the `key` table. -/
structure Key where
  id : Nat
  product_id : Nat
  key_code : String
  used : Bool
deriving DecidableEq

/-- A row of the `purchase` table.  `transaction_id` is `str(uuid.uuid4())` in
the code; we model the uuid draw as a fresh nonce from the counter
`DB.nextTxn`, which never repeats. -/
structure Purchase where
  id : Nat
  user_id : Nat
  product_id : Nat
  key_id : Nat
  transaction_id : Nat
deriving DecidableEq

/-- The whole database, rows in insertion order, plus the autoincrement
counters for primary keys and the uuid nonce counter. -/
structure DB where
  users : List User
  products : List Product
  keys : List Key
  purchases : List Purchase
  nextUserId : Nat
  nextProductId : Nat
  nextKeyId : Nat
  nextPurchaseId : Nat
  nextTxn : Nat
deriving DecidableEq

/-- The Flask session cookie: `session['user_id']`, `session['is_admin']`
(absent keys read as falsy) and the one-shot `session['purchased_key']`. -/
structure Sess where
  user_id : Option Nat
  is_admin : Bool
  purchased_key : Option String
deriving DecidableEq

/-- Pages a handler can render or redirect to. -/
inductive Page
  | index
  | loginPg
  | registerPg
  | adminDash
  | successPg
  | productPg
deriving DecidableEq

/-- The HTTP response part of a handler's behaviour.  `crash` is an unhandled
Python exception propagating out of the handler (HTTP 500). -/
inductive Resp
  | redirect (tgt : Page)
  | render (p : Page)
  | jsonKey (k : String)
  | jsonErr (msg : String) (code : Nat)
  | jsonId
  | notFound
  | crash
deriving DecidableEq

/-- A handler's visible outcome: the flashed messages plus the response. -/
structure Output where
  flashes : List String
  resp : Resp
deriving DecidableEq

/-- The message handed to `send_key_email(email, key_code, product_name)`. -/
structure Mail where
  rcpt : String
  key_code : String
  product_name : String
deriving DecidableEq

/-- Result of running one route handler. -/
structure RouteResult where
  db : DB
  sess : Sess
  out : Output
  mail : Option Mail
deriving DecidableEq

/-- `User.query.get(uid)`: primary-key lookup. -/
def findUser (db : DB) (uid : Nat) : Option User :=
  db.users.find? (fun u => u.id == uid)

/-- `Product.query.get(pid)`: primary-key lookup. -/
def findProduct (db : DB) (pid : Nat) : Option Product :=
  db.products.find? (fun p => p.id == pid)

/-- `Key.query.filter_by(product_id=pid, used=False).first()`. -/
def findAvailableKey (db : DB) (pid : Nat) : Option Key :=
  db.keys.find? (fun k => k.product_id == pid && k.used == false)

/-- `Key.query.filter_by(key_code=c).first()` tested for truthiness. -/
def keyCodeExists (db : DB) (c : String) : Bool :=
  db.keys.any (fun k => k.key_code == c)

/-- Key lookup by primary key (for stating invariants). -/
def keyOf (db : DB) (i : Nat) : Option Key :=
  db.keys.find? (fun k => k.id == i)

/-- Product lookup by primary key (alias of `findProduct`, used in
invariant statements). -/
def productOf (db : DB) (i : Nat) : Option Product :=
  db.products.find? (fun p => p.id == i)

/-- The admin flag of user `i`, when user `i` exists. -/
def adminOf (db : DB) (i : Nat) : Option Bool :=
  (findUser db i).map User.is_admin

/-- Number of keys of product `pid` with `used=False` in a key list. -/
def unusedKeyCount (ks : List Key) (pid : Nat) : Nat :=
  ks.countP (fun k => k.product_id == pid && !k.used)

/-- Number of keys of product `pid` with `used=False`. -/
def unusedCount (db : DB) (pid : Nat) : Nat :=
  unusedKeyCount db.keys pid

/-- The guard `'user_id' not in session or not session.get('is_admin')`,
negated: the caller is an authenticated admin. -/
def isAdminSess (s : Sess) : Bool :=
  s.user_id.isSome && s.is_admin

/-- The database effect of the allocation branch of `success`: mark the found
key used, decrement the product's stock, append the purchase row. -/
def allocDB (db : DB) (user : User) (product : Product) (k : Key) : DB :=
  { db with
    keys := db.keys.map (fun k2 =>
      if k2.id == k.id then { k2 with used := true } else k2)
    products := db.products.map (fun p =>
      if p.id == product.id then { p with stock := p.stock - 1 } else p)
    purchases := db.purchases ++
      [⟨db.nextPurchaseId, user.id, product.id, k.id, db.nextTxn⟩]
    nextPurchaseId := db.nextPurchaseId + 1
    nextTxn := db.nextTxn + 1 }

/-- The `/success/<product_id>` handler.  `mailOk` is the outcome of the
external SMTP dialogue in `send_key_email`: when it fails the exception
propagates out of the handler — after `db.session.commit()` has already run —
and line `session['purchased_key'] = ...`, which follows the send, is never
reached. -/
def successRoute (db : DB) (s : Sess) (pid : Nat) (mailOk : Bool) : RouteResult :=
  match s.user_id with
  | none => ⟨db, s, ⟨[], .redirect .loginPg⟩, none⟩
  | some uid =>
    match findProduct db pid with
    | none => ⟨db, s, ⟨[], .notFound⟩, none⟩
    | some product =>
      match findUser db uid with
      | none => ⟨db, s, ⟨[], .crash⟩, none⟩
      | some user =>
        match findAvailableKey db pid with
        | none =>
          ⟨db, s, ⟨["Error: No key available. Contact support."], .redirect .index⟩, none⟩
        | some k =>
          let db' := allocDB db user product k
          let msg : Mail := ⟨user.email, k.key_code, product.name⟩
          if mailOk then
            ⟨db', { s with purchased_key := some k.key_code },
              ⟨[], .render .successPg⟩, some msg⟩
          else
            ⟨db', s, ⟨[], .crash⟩, some msg⟩

/-- The `/get_key` handler: read-once retrieval of the stashed key code. -/
def getKeyRoute (s : Sess) : Sess × Output :=
  match s.purchased_key with
  | some k => ({ s with purchased_key := none }, ⟨[], .jsonKey k⟩)
  | none => (s, ⟨[], .jsonErr "No key available" 404⟩)

/-- The POST branch of `/register`.  `pwHash` is the output of
`generate_password_hash`; the new user row takes the column default
`is_admin=False`. -/
def registerRoute (db : DB) (s : Sess) (username email pwHash : String) : RouteResult :=
  if db.users.any (fun u => u.username == username) ||
     db.users.any (fun u => u.email == email) then
    ⟨db, s, ⟨["User already exists."], .redirect .registerPg⟩, none⟩
  else
    ⟨{ db with
        users := db.users ++ [⟨db.nextUserId, username, pwHash, email, false⟩]
        nextUserId := db.nextUserId + 1 },
      s, ⟨["Registered successfully. Please login."], .redirect .loginPg⟩, none⟩

/-- The POST branch of `/login`.  `checkOk` is the outcome of the external
salted-hash verification `check_password_hash(user.password, password)`. -/
def loginRoute (db : DB) (s : Sess) (username : String) (checkOk : Bool) : RouteResult :=
  match db.users.find? (fun u => u.username == username) with
  | some u =>
    if checkOk then
      ⟨db, ⟨some u.id, u.is_admin, s.purchased_key⟩, ⟨[], .redirect .index⟩, none⟩
    else
      ⟨db, s, ⟨["Invalid credentials."], .render .loginPg⟩, none⟩
  | none => ⟨db, s, ⟨["Invalid credentials."], .render .loginPg⟩, none⟩

/-- The `/logout` handler: `session.clear()`. -/
def logoutRoute (db : DB) (_s : Sess) : RouteResult :=
  ⟨db, ⟨none, false, none⟩, ⟨[], .redirect .index⟩, none⟩

/-- The `/admin` dashboard: read-only, but its auth-rejection branch flashes
a notice before redirecting. -/
def adminDashboardRoute (db : DB) (s : Sess) : RouteResult :=
  if isAdminSess s then
    ⟨db, s, ⟨[], .render .adminDash⟩, none⟩
  else
    ⟨db, s, ⟨["Access denied."], .redirect .index⟩, none⟩

/-- The POST branch of `/admin/add_product`: inserts with `stock=0`.  `price`
is the double produced by `float(request.form['price'])`. -/
def addProductRoute (db : DB) (s : Sess) (name description : String) (price : Dyadic) :
    RouteResult :=
  if isAdminSess s then
    ⟨{ db with
        products := db.products ++ [⟨db.nextProductId, name, description, price, 0⟩]
        nextProductId := db.nextProductId + 1 },
      s, ⟨["Product added."], .redirect .adminDash⟩, none⟩
  else
    ⟨db, s, ⟨[], .redirect .index⟩, none⟩

/-- One iteration of the CSV loop in `upload_keys`: skip if the code exists
anywhere in the inventory (the pending inserts of earlier iterations are
visible through SQLAlchemy's autoflush), else insert an unused key for the
target product and increment that product's stock. -/
def importStep (db : DB) (pid : Nat) (code : String) : DB :=
  if keyCodeExists db code then db
  else
    { db with
      keys := db.keys ++ [⟨db.nextKeyId, pid, code, false⟩]
      nextKeyId := db.nextKeyId + 1
      products := db.products.map (fun p =>
        if p.id == pid then { p with stock := p.stock + 1 } else p) }

/-- The whole CSV loop of `upload_keys` over the parsed key codes
(`row[0].strip()` of each non-empty row). -/
def importKeys (db : DB) (pid : Nat) (codes : List String) : DB :=
  codes.foldl (fun d c => importStep d pid c) db

/-- The POST branch of `/admin/upload_keys/<product_id>`, from the point where
the uploaded CSV has been parsed into its list of key codes. -/
def uploadKeysRoute (db : DB) (s : Sess) (pid : Nat) (codes : List String) :
    RouteResult :=
  if isAdminSess s then
    match findProduct db pid with
    | none => ⟨db, s, ⟨[], .notFound⟩, none⟩
    | some _ =>
      ⟨importKeys db pid codes, s,
        ⟨["Keys uploaded and stock updated."], .redirect .adminDash⟩, none⟩
  else
    ⟨db, s, ⟨[], .redirect .index⟩, none⟩

/-- The POST branch of `/admin/edit_product/<product_id>`: rewrites name,
description and price; stock is untouched. -/
def editProductRoute (db : DB) (s : Sess) (pid : Nat) (name description : String)
    (price : Dyadic) : RouteResult :=
  if isAdminSess s then
    match findProduct db pid with
    | none => ⟨db, s, ⟨[], .notFound⟩, none⟩
    | some _ =>
      ⟨{ db with
          products := db.products.map (fun p =>
            if p.id == pid then
              { p with name := name, description := description, price := price }
            else p) },
        s, ⟨["Product updated."], .redirect .adminDash⟩, none⟩
  else
    ⟨db, s, ⟨[], .redirect .index⟩, none⟩

/-- The `/admin/delete_product/<product_id>` handler.  No ORM relationship or
cascade is declared on `Key.product_id`, so `db.session.delete(product)`
removes only the product row; the product's keys stay in the table. -/
def deleteProductRoute (db : DB) (s : Sess) (pid : Nat) : RouteResult :=
  if isAdminSess s then
    match findProduct db pid with
    | none => ⟨db, s, ⟨[], .notFound⟩, none⟩
    | some _ =>
      ⟨{ db with products := db.products.filter (fun p => !(p.id == pid)) },
        s, ⟨["Product deleted."], .redirect .adminDash⟩, none⟩
  else
    ⟨db, s, ⟨[], .redirect .index⟩, none⟩

/-- The `/admin/make_admin/<user_id>` handler: sets `is_admin = True`. -/
def makeAdminRoute (db : DB) (s : Sess) (uid : Nat) : RouteResult :=
  if isAdminSess s then
    match findUser db uid with
    | none => ⟨db, s, ⟨[], .notFound⟩, none⟩
    | some _ =>
      ⟨{ db with
          users := db.users.map (fun u =>
            if u.id == uid then { u with is_admin := true } else u) },
        s, ⟨["User promoted to admin."], .redirect .adminDash⟩, none⟩
  else
    ⟨db, s, ⟨[], .redirect .index⟩, none⟩

/-- Floor of the base-2 logarithm, fuel-based so that it reduces in the
kernel; `log2fuel n n` is `⌊log₂ n⌋` for `n ≥ 1`. -/
def log2fuel : Nat → Nat → Nat
  | 0, _ => 0
  | fuel + 1, n => if n < 2 then 0 else log2fuel fuel (n / 2) + 1

/-- Floor of the base-2 logarithm of a positive natural. -/
def log2floor (n : Nat) : Nat := log2fuel n n

/-- Round the fraction `a / b` (with `b ≥ 1`) to the nearest integer, ties to
even: the rounding mode of IEEE-754 binary64 arithmetic. -/
def roundNearestEven (a b : Nat) : Nat :=
  let q := a / b
  let r := a % b
  if 2 * r < b then q
  else if b < 2 * r then q + 1
  else if q % 2 = 0 then q else q + 1

/-- The IEEE-754 binary64 value nearest to the fraction `a / b`, for values in
`[1, 2^53)`·2^k with `k` small — the normal range containing every price and
every price·100 this store handles: scale `a / b` into `[2^52, 2^53)`, round
to an integer significand with ties to even, and keep the scale. -/
def roundDoubleFrac (a b : Nat) : Dyadic :=
  let k := log2floor (a / b)
  if k ≤ 52 then
    ⟨roundNearestEven (a * 2 ^ (52 - k)) b, 52 - k⟩
  else
    ⟨roundNearestEven a (b * 2 ^ (k - 52)) * 2 ^ (k - 52), 0⟩

/-- `float('d')` for a nonnegative decimal literal with value `a / b`: the
nearest binary64 double. -/
def pyFloat (a b : Nat) : Dyadic := roundDoubleFrac a b

/-- The double product `price * 100`: the exact product `m·100 / 2^e`,
rounded back to binary64 as the hardware multiply does. -/
def floatMul100 (d : Dyadic) : Dyadic := roundDoubleFrac (d.m * 100) (2 ^ d.e)

/-- `int(x)` for a nonnegative double: truncation toward zero. -/
def pyInt (d : Dyadic) : Nat := d.m / 2 ^ d.e

/-- The `unit_amount` field sent to Stripe: `int(product.price * 100)`
computed in IEEE-754 binary64 arithmetic. -/
def unitAmount (price : Dyadic) : Nat := pyInt (floatMul100 price)

/-- The `price_data` line item of the outbound
`stripe.checkout.Session.create` request. -/
structure StripeLineItem where
  currency : String
  unit_amount : Nat
  product_name : String
  quantity : Nat
deriving DecidableEq

/-- The line item built by `create_checkout_session` for a product. -/
def checkoutLineItem (p : Product) : StripeLineItem :=
  ⟨"usd", unitAmount p.price, p.name, 1⟩

/-- The `/create-checkout-session/<product_id>` handler: login check, stock
pre-check, then the outbound Stripe request (returned as the second
component; `none` when no request is sent). -/
def createCheckoutSessionRoute (db : DB) (s : Sess) (pid : Nat) :
    Output × Option StripeLineItem :=
  match s.user_id with
  | none => (⟨["Please login to purchase."], .redirect .loginPg⟩, none)
  | some _ =>
    match findProduct db pid with
    | none => (⟨[], .notFound⟩, none)
    | some p =>
      if p.stock ≤ 0 then (⟨["Out of stock!"], .redirect .index⟩, none)
      else (⟨[], .jsonId⟩, some (checkoutLineItem p))

/-- One request against the application: every route, with the caller's
session cookie and the outcomes of the external calls as parameters. -/
inductive Action
  | registerA (s : Sess) (username email pwHash : String)
  | loginA (s : Sess) (username : String) (checkOk : Bool)
  | logoutA (s : Sess)
  | checkoutA (s : Sess) (pid : Nat)
  | successA (s : Sess) (pid : Nat) (mailOk : Bool)
  | getKeyA (s : Sess)
  | dashboardA (s : Sess)
  | addProductA (s : Sess) (name description : String) (price : Dyadic)
  | uploadKeysA (s : Sess) (pid : Nat) (codes : List String)
  | editProductA (s : Sess) (pid : Nat) (name description : String) (price : Dyadic)
  | deleteProductA (s : Sess) (pid : Nat)
  | makeAdminA (s : Sess) (uid : Nat)
deriving DecidableEq

/-- The database effect of one request. -/
def step (db : DB) : Action → DB
  | .registerA s u e p => (registerRoute db s u e p).db
  | .loginA s u c => (loginRoute db s u c).db
  | .logoutA s => (logoutRoute db s).db
  | .checkoutA _ _ => db
  | .successA s pid mailOk => (successRoute db s pid mailOk).db
  | .getKeyA _ => db
  | .dashboardA s => (adminDashboardRoute db s).db
  | .addProductA s n d pr => (addProductRoute db s n d pr).db
  | .uploadKeysA s pid codes => (uploadKeysRoute db s pid codes).db
  | .editProductA s pid n d pr => (editProductRoute db s pid n d pr).db
  | .deleteProductA s pid => (deleteProductRoute db s pid).db
  | .makeAdminA s uid => (makeAdminRoute db s uid).db

/-- The database reached after a sequence of requests. -/
def run (db : DB) (acts : List Action) : DB := acts.foldl step db

/-- Structural well-formedness of the key table that the schema's
autoincrement primary key guarantees: key ids are duplicate-free and below
the autoincrement counter. -/
def KeyInv (db : DB) : Prop :=
  (db.keys.map Key.id).Nodup ∧ ∀ k ∈ db.keys, k.id < db.nextKeyId

/-- The purchase-ledger invariant: no two purchase rows share a key, and
every purchased key is marked used. -/
def LedgerInv (db : DB) : Prop :=
  (db.purchases.map Purchase.key_id).Nodup ∧
  (∀ pr ∈ db.purchases, ∃ k ∈ db.keys, k.id = pr.key_id ∧ k.used = true)

/-- The derived-stock invariant: every product's stock counter equals the
number of its unused keys. -/
def StockInv (db : DB) : Prop :=
  ∀ p ∈ db.products, p.stock = (unusedCount db p.id : Int)

theorem find?_map_pres {α : Type _} (f : α → Nat) (g : α → α)
    (hg : ∀ a, f (g a) = f a) (l : List α) (i : Nat) :
    (l.map g).find? (fun x => f x == i) = (l.find? (fun x => f x == i)).map g := by
  rw [List.find?_map]
  have hpc : ((fun x => f x == i) ∘ g) = (fun x => f x == i) := by
    funext a
    simp [Function.comp, hg]
  rw [hpc]

theorem find?_eq_self_of_nodup {α : Type _} (f : α → Nat) :
    ∀ {l : List α}, (l.map f).Nodup → ∀ {a : α}, a ∈ l →
      l.find? (fun x => f x == f a) = some a := by
  intro l
  induction l with
  | nil => intro _ a ha; cases ha
  | cons b t ih =>
    intro hnd a ha
    rw [List.map_cons, List.nodup_cons] at hnd
    rcases List.mem_cons.mp ha with rfl | hat
    · simp [List.find?_cons]
    · have hne : (f b == f a) = false := by
        refine beq_eq_false_iff_ne.mpr ?_
        intro he
        exact hnd.1 (by rw [he]; exact List.mem_map_of_mem f hat)
      simp only [List.find?_cons, hne]
      exact ih hnd.2 hat

theorem countP_map_update {α : Type _} (f : α → Nat) (p : α → Bool) (g : α → α) :
    ∀ {l : List α}, (l.map f).Nodup → ∀ {k : α}, k ∈ l → p k = true →
      (∀ a, f a ≠ f k → g a = a) → p (g k) = false →
      (l.map g).countP p + 1 = l.countP p := by
  intro l
  induction l with
  | nil => intro _ k hk; cases hk
  | cons b t ih =>
    intro hnd k hk hpk hga hpg
    rw [List.map_cons, List.nodup_cons] at hnd
    rcases List.mem_cons.mp hk with rfl | hkt
    · have ht : t.map g = t := by
        have : ∀ a ∈ t, g a = id a := by
          intro a hat
          refine hga a ?_
          intro he
          exact hnd.1 (by rw [← he]; exact List.mem_map_of_mem f hat)
        rw [List.map_congr_left this, List.map_id]
      rw [List.map_cons, ht, List.countP_cons, List.countP_cons, hpg, hpk]
      simp
    · have hfb : f b ≠ f k := by
        intro he
        exact hnd.1 (by rw [he]; exact List.mem_map_of_mem f hkt)
      rw [List.map_cons, hga b hfb, List.countP_cons, List.countP_cons]
      have := ih hnd.2 hkt hpk hga hpg
      omega

theorem countP_map_invariant {α : Type _} (p : α → Bool) (g : α → α) (l : List α)
    (h : ∀ a ∈ l, p (g a) = p a) : (l.map g).countP p = l.countP p := by
  rw [List.countP_map]
  exact List.countP_congr (fun a ha => by simp [Function.comp, h a ha])

theorem nodup_append_single {α : Type _} {l : List α} {a : α}
    (h : l.Nodup) (ha : a ∉ l) : (l ++ [a]).Nodup := by
  rw [List.nodup_append_comm]
  exact List.nodup_cons.mpr ⟨ha, h⟩

theorem unusedKeyCount_append_new (ks : List Key) (i pid j : Nat) (c : String) :
    unusedKeyCount (ks ++ [⟨i, pid, c, false⟩]) j
      = unusedKeyCount ks j + (if pid = j then 1 else 0) := by
  simp only [unusedKeyCount, List.countP_append, List.countP_cons, List.countP_nil]
  by_cases hj : pid = j <;> simp [hj]

theorem unusedKeyCount_flip_target {ks : List Key} {pid : Nat}
    (hnd : (ks.map Key.id).Nodup) {k : Key} (hk : k ∈ ks)
    (hu : k.used = false) (hpid : k.product_id = pid) :
    unusedKeyCount
        (ks.map fun k2 => if k2.id == k.id then { k2 with used := true } else k2) pid + 1
      = unusedKeyCount ks pid := by
  refine countP_map_update Key.id _ _ hnd hk ?_ ?_ ?_
  · simp [hpid, hu]
  · intro a ha
    simp [beq_eq_false_iff_ne.mpr ha]
  · simp

theorem unusedKeyCount_flip_other {ks : List Key} {pid : Nat}
    (hnd : (ks.map Key.id).Nodup) {k : Key} (hk : k ∈ ks)
    (hpid : k.product_id = pid) {j : Nat} (hj : j ≠ pid) :
    unusedKeyCount
        (ks.map fun k2 => if k2.id == k.id then { k2 with used := true } else k2) j
      = unusedKeyCount ks j := by
  refine countP_map_invariant _ _ _ ?_
  intro a ha
  by_cases hid : a.id = k.id
  · have hak : a = k := List.inj_on_of_nodup_map hnd ha hk hid
    subst hak
    have : (a.product_id == j) = false := by
      refine beq_eq_false_iff_ne.mpr ?_
      rw [hpid]
      exact fun he => hj he.symm
    simp [this]
  · simp [beq_eq_false_iff_ne.mpr hid]

theorem stockInv_importStep {db : DB} {pid : Nat} {c : String}
    (h : StockInv db) : StockInv (importStep db pid c) := by
  unfold importStep
  split
  · exact h
  · intro p' hp'
    simp only [List.mem_map] at hp'
    obtain ⟨p, hp, rfl⟩ := hp'
    have hbase := h p hp
    simp only [unusedCount] at hbase
    by_cases hid : p.id = pid
    · subst hid
      simp only [unusedCount, beq_self_eq_true, if_true]
      rw [unusedKeyCount_append_new]
      simp
      omega
    · have hne : (p.id == pid) = false := beq_eq_false_iff_ne.mpr hid
      simp only [unusedCount, hne, Bool.false_eq_true, if_false]
      rw [unusedKeyCount_append_new]
      rw [if_neg (fun he => hid he.symm)]
      omega

theorem stockInv_importKeys {db : DB} {pid : Nat} {codes : List String}
    (h : StockInv db) : StockInv (importKeys db pid codes) := by
  induction codes generalizing db with
  | nil => exact h
  | cons c cs ih => exact ih (stockInv_importStep h)

theorem stockInv_alloc {db : DB} (user : User) {product : Product} {k : Key}
    (hnd : (db.keys.map Key.id).Nodup)
    (hk : k ∈ db.keys) (hu : k.used = false) (hpid : k.product_id = product.id)
    (h : StockInv db) : StockInv (allocDB db user product k) := by
  intro p' hp'
  simp only [allocDB, List.mem_map] at hp'
  obtain ⟨p, hp, rfl⟩ := hp'
  have hbase := h p hp
  simp only [unusedCount] at hbase
  simp only [unusedCount, allocDB]
  by_cases hid : p.id = product.id
  · simp only [hid, beq_self_eq_true, if_true]
    rw [hid] at hbase
    have hc := unusedKeyCount_flip_target hnd hk hu hpid
    omega
  · have hne : (p.id == product.id) = false := beq_eq_false_iff_ne.mpr hid
    simp only [hne, Bool.false_eq_true, if_false]
    have hc := unusedKeyCount_flip_other hnd hk hpid hid
    omega

theorem stockInv_deleteDB {db : DB} {pid : Nat} (h : StockInv db) :
    StockInv { db with products := db.products.filter (fun p => !(p.id == pid)) } := by
  intro p hp
  exact h p (List.mem_filter.mp hp).1

/-- C1: for every product P, the stock counter of P equals the number of keys
belonging to P with `used=false`, and this equality is preserved by every key
import, every key allocation at finalize (successful or not), and every
product deletion. -/
theorem C1_stock_inv_preserved (db : DB) (s : Sess) (pid : Nat)
    (codes : List String) (mailOk : Bool)
    (hnd : (db.keys.map Key.id).Nodup) (h : StockInv db) :
    StockInv (uploadKeysRoute db s pid codes).db
    ∧ StockInv (successRoute db s pid mailOk).db
    ∧ StockInv (deleteProductRoute db s pid).db := by
  refine ⟨?_, ?_, ?_⟩
  · unfold uploadKeysRoute
    split
    · split
      · exact h
      · exact stockInv_importKeys h
    · exact h
  · unfold successRoute
    split
    · exact h
    · split
      · exact h
      next product hfp =>
        split
        · exact h
        next user hfu =>
          split
          · exact h
          next k hfk =>
            have hk := List.mem_of_find?_eq_some hfk
            have hprop := List.find?_some hfk
            simp only [Bool.and_eq_true, beq_iff_eq] at hprop
            have hpid2 : product.id = pid := by
              have := List.find?_some hfp
              simpa using this
            have halloc := stockInv_alloc user
              hnd hk hprop.2 (by rw [hprop.1]; exact hpid2.symm) h
            split
            · exact halloc
            · exact halloc
  · unfold deleteProductRoute
    split
    · split
      · exact h
      · exact stockInv_deleteDB h
    · exact h

theorem keyInv_congr {db db' : DB} (hk : db'.keys = db.keys)
    (hn : db'.nextKeyId = db.nextKeyId) (h : KeyInv db) : KeyInv db' := by
  obtain ⟨h1, h2⟩ := h
  exact ⟨hk ▸ h1, by rw [hk, hn]; exact h2⟩

theorem ledgerInv_congr {db db' : DB} (hk : db'.keys = db.keys)
    (hp : db'.purchases = db.purchases) (h : LedgerInv db) : LedgerInv db' := by
  obtain ⟨h1, h2⟩ := h
  exact ⟨hp ▸ h1, by rw [hk, hp]; exact h2⟩

theorem keyOf_congr {db db' : DB} (hk : db'.keys = db.keys) (i : Nat) :
    keyOf db' i = keyOf db i := by
  unfold keyOf
  rw [hk]

theorem adminOf_congr {db db' : DB} (hu : db'.users = db.users) (i : Nat) :
    adminOf db' i = adminOf db i := by
  unfold adminOf findUser
  rw [hu]

theorem importStep_users (db : DB) (pid : Nat) (c : String) :
    (importStep db pid c).users = db.users := by
  unfold importStep
  split <;> rfl

theorem importStep_purchases (db : DB) (pid : Nat) (c : String) :
    (importStep db pid c).purchases = db.purchases := by
  unfold importStep
  split <;> rfl

theorem importKeys_users (db : DB) (pid : Nat) (codes : List String) :
    (importKeys db pid codes).users = db.users := by
  induction codes generalizing db with
  | nil => rfl
  | cons c cs ih =>
    have hstep : importKeys db pid (c :: cs) = importKeys (importStep db pid c) pid cs := rfl
    rw [hstep, ih, importStep_users]

theorem registerRoute_keys (db : DB) (s : Sess) (u e p : String) :
    (registerRoute db s u e p).db.keys = db.keys
    ∧ (registerRoute db s u e p).db.purchases = db.purchases
    ∧ (registerRoute db s u e p).db.nextKeyId = db.nextKeyId := by
  unfold registerRoute
  split <;> exact ⟨rfl, rfl, rfl⟩

theorem loginRoute_db (db : DB) (s : Sess) (u : String) (c : Bool) :
    (loginRoute db s u c).db = db := by
  unfold loginRoute
  split <;> (try split) <;> rfl

theorem adminDashboardRoute_db (db : DB) (s : Sess) :
    (adminDashboardRoute db s).db = db := by
  unfold adminDashboardRoute
  split <;> rfl

theorem addProductRoute_keys (db : DB) (s : Sess) (n d : String) (pr : Dyadic) :
    (addProductRoute db s n d pr).db.keys = db.keys
    ∧ (addProductRoute db s n d pr).db.purchases = db.purchases
    ∧ (addProductRoute db s n d pr).db.nextKeyId = db.nextKeyId
    ∧ (addProductRoute db s n d pr).db.users = db.users := by
  unfold addProductRoute
  split <;> exact ⟨rfl, rfl, rfl, rfl⟩

theorem editProductRoute_keys (db : DB) (s : Sess) (pid : Nat) (n d : String)
    (pr : Dyadic) :
    (editProductRoute db s pid n d pr).db.keys = db.keys
    ∧ (editProductRoute db s pid n d pr).db.purchases = db.purchases
    ∧ (editProductRoute db s pid n d pr).db.nextKeyId = db.nextKeyId
    ∧ (editProductRoute db s pid n d pr).db.users = db.users := by
  unfold editProductRoute
  split <;> (try split) <;> exact ⟨rfl, rfl, rfl, rfl⟩

theorem deleteProductRoute_keys (db : DB) (s : Sess) (pid : Nat) :
    (deleteProductRoute db s pid).db.keys = db.keys
    ∧ (deleteProductRoute db s pid).db.purchases = db.purchases
    ∧ (deleteProductRoute db s pid).db.nextKeyId = db.nextKeyId
    ∧ (deleteProductRoute db s pid).db.users = db.users := by
  unfold deleteProductRoute
  split <;> (try split) <;> exact ⟨rfl, rfl, rfl, rfl⟩

theorem makeAdminRoute_keys (db : DB) (s : Sess) (uid : Nat) :
    (makeAdminRoute db s uid).db.keys = db.keys
    ∧ (makeAdminRoute db s uid).db.purchases = db.purchases
    ∧ (makeAdminRoute db s uid).db.nextKeyId = db.nextKeyId := by
  unfold makeAdminRoute
  split <;> (try split) <;> exact ⟨rfl, rfl, rfl⟩

theorem uploadKeysRoute_users (db : DB) (s : Sess) (pid : Nat)
    (codes : List String) :
    (uploadKeysRoute db s pid codes).db.users = db.users := by
  unfold uploadKeysRoute
  split <;> (try split) <;> first | rfl | exact importKeys_users db pid codes

theorem successRoute_users (db : DB) (s : Sess) (pid : Nat) (m : Bool) :
    (successRoute db s pid m).db.users = db.users := by
  unfold successRoute
  split <;> (try split) <;> (try split) <;> (try split) <;> (try split) <;> rfl

theorem keyInv_importStep {db : DB} {pid : Nat} {c : String}
    (h : KeyInv db) : KeyInv (importStep db pid c) := by
  obtain ⟨hnd, hlt⟩ := h
  unfold importStep
  split
  · exact ⟨hnd, hlt⟩
  · constructor
    · rw [List.map_append]
      refine nodup_append_single hnd ?_
      intro hmem
      rw [List.mem_map] at hmem
      obtain ⟨k, hk, hkid⟩ := hmem
      have hkid2 : k.id = db.nextKeyId := hkid
      have := hlt k hk
      omega
    · intro k hk
      rw [List.mem_append] at hk
      rcases hk with h1 | h2
      · have := hlt k h1
        show k.id < db.nextKeyId + 1
        omega
      · rw [List.mem_singleton] at h2
        subst h2
        show db.nextKeyId < db.nextKeyId + 1
        omega

theorem keyInv_importKeys {db : DB} {pid : Nat} {codes : List String}
    (h : KeyInv db) : KeyInv (importKeys db pid codes) := by
  induction codes generalizing db with
  | nil => exact h
  | cons c cs ih => exact ih (keyInv_importStep h)

theorem keyInv_alloc {db : DB} {user : User} {product : Product} {k : Key}
    (h : KeyInv db) : KeyInv (allocDB db user product k) := by
  obtain ⟨hnd, hlt⟩ := h
  constructor
  · have hmm : (allocDB db user product k).keys.map Key.id = db.keys.map Key.id := by
      simp only [allocDB, List.map_map]
      refine List.map_congr_left ?_
      intro a _
      by_cases hid : (a.id == k.id) = true <;> simp [Function.comp, hid]
    rw [hmm]
    exact hnd
  · intro k' hk'
    simp only [allocDB, List.mem_map] at hk'
    obtain ⟨a, ha, rfl⟩ := hk'
    have := hlt a ha
    by_cases hid : (a.id == k.id) = true <;> simp [allocDB, hid] <;> omega

theorem ledgerInv_importStep {db : DB} {pid : Nat} {c : String}
    (h : LedgerInv db) : LedgerInv (importStep db pid c) := by
  obtain ⟨hnd, href⟩ := h
  unfold importStep
  split
  · exact ⟨hnd, href⟩
  · refine ⟨hnd, ?_⟩
    intro pr hpr
    obtain ⟨k, hk, hid, hu⟩ := href pr hpr
    exact ⟨k, List.mem_append_left _ hk, hid, hu⟩

theorem ledgerInv_importKeys {db : DB} {pid : Nat} {codes : List String}
    (h : LedgerInv db) : LedgerInv (importKeys db pid codes) := by
  induction codes generalizing db with
  | nil => exact h
  | cons c cs ih => exact ih (ledgerInv_importStep h)

theorem ledgerInv_alloc {db : DB} {user : User} {product : Product} {k : Key}
    (hnd : (db.keys.map Key.id).Nodup) (hk : k ∈ db.keys) (hu : k.used = false)
    (h : LedgerInv db) : LedgerInv (allocDB db user product k) := by
  obtain ⟨hpnd, href⟩ := h
  constructor
  · simp only [allocDB, List.map_append, List.map_cons, List.map_nil]
    refine nodup_append_single hpnd ?_
    intro hmem
    rw [List.mem_map] at hmem
    obtain ⟨pr, hpr, hprid⟩ := hmem
    obtain ⟨k', hk', hk'id, hk'u⟩ := href pr hpr
    have hkk : k' = k := List.inj_on_of_nodup_map hnd hk' hk (by rw [hk'id, hprid])
    rw [hkk] at hk'u
    rw [hk'u] at hu
    cases hu
  · intro pr hpr
    simp only [allocDB, List.mem_append, List.mem_singleton] at hpr
    rcases hpr with hold | hnew
    · obtain ⟨k', hk', hk'id, hk'u⟩ := href pr hold
      refine ⟨(fun k2 => if k2.id == k.id then { k2 with used := true } else k2) k',
        List.mem_map_of_mem _ hk', ?_, ?_⟩
      · show (if (k'.id == k.id) = true then { k' with used := true } else k').id = pr.key_id
        split
        · exact hk'id
        · exact hk'id
      · show (if (k'.id == k.id) = true then { k' with used := true } else k').used = true
        split
        · rfl
        · exact hk'u
    · subst hnew
      refine ⟨(fun k2 => if k2.id == k.id then { k2 with used := true } else k2) k,
        List.mem_map_of_mem _ hk, ?_, ?_⟩ <;> simp

theorem usedMono_importStep {db : DB} {pid : Nat} {c : String} {i : Nat} {k : Key}
    (hf : keyOf db i = some k) : keyOf (importStep db pid c) i = some k := by
  unfold importStep
  split
  · exact hf
  · unfold keyOf at hf ⊢
    rw [List.find?_append, hf]
    rfl

theorem usedMono_importKeys {db : DB} {pid : Nat} {codes : List String} {i : Nat}
    {k : Key} (hf : keyOf db i = some k) :
    keyOf (importKeys db pid codes) i = some k := by
  induction codes generalizing db with
  | nil => exact hf
  | cons c cs ih => exact ih (usedMono_importStep hf)

theorem usedMono_alloc {db : DB} {user : User} {product : Product} {kA : Key}
    {i : Nat} {k : Key} (hf : keyOf db i = some k) (hu : k.used = true) :
    ∃ k', keyOf (allocDB db user product kA) i = some k' ∧ k'.used = true := by
  refine ⟨(fun k2 => if k2.id == kA.id then { k2 with used := true } else k2) k, ?_, ?_⟩
  · unfold keyOf allocDB
    rw [find?_map_pres Key.id _ ?_ _ i]
    · unfold keyOf at hf
      rw [hf]
      rfl
    · intro a
      by_cases hid : (a.id == kA.id) = true <;> simp [hid]
  · by_cases hid : (k.id == kA.id) = true <;> simp [hid, hu]

theorem inv_step {db : DB} (h1 : KeyInv db) (h2 : LedgerInv db) (a : Action) :
    KeyInv (step db a) ∧ LedgerInv (step db a) := by
  cases a <;> simp only [step]
  case registerA s u e p =>
    obtain ⟨hk, hp, hn⟩ := registerRoute_keys db s u e p
    exact ⟨keyInv_congr hk hn h1, ledgerInv_congr hk hp h2⟩
  case loginA s u c =>
    rw [loginRoute_db]
    exact ⟨h1, h2⟩
  case logoutA s => exact ⟨h1, h2⟩
  case checkoutA s pid => exact ⟨h1, h2⟩
  case getKeyA s => exact ⟨h1, h2⟩
  case dashboardA s =>
    rw [adminDashboardRoute_db]
    exact ⟨h1, h2⟩
  case addProductA s n d pr =>
    obtain ⟨hk, hp, hn, _⟩ := addProductRoute_keys db s n d pr
    exact ⟨keyInv_congr hk hn h1, ledgerInv_congr hk hp h2⟩
  case editProductA s pid n d pr =>
    obtain ⟨hk, hp, hn, _⟩ := editProductRoute_keys db s pid n d pr
    exact ⟨keyInv_congr hk hn h1, ledgerInv_congr hk hp h2⟩
  case deleteProductA s pid =>
    obtain ⟨hk, hp, hn, _⟩ := deleteProductRoute_keys db s pid
    exact ⟨keyInv_congr hk hn h1, ledgerInv_congr hk hp h2⟩
  case makeAdminA s uid =>
    obtain ⟨hk, hp, hn⟩ := makeAdminRoute_keys db s uid
    exact ⟨keyInv_congr hk hn h1, ledgerInv_congr hk hp h2⟩
  case uploadKeysA s pid codes =>
    unfold uploadKeysRoute
    split
    · split
      · exact ⟨h1, h2⟩
      · exact ⟨keyInv_importKeys h1, ledgerInv_importKeys h2⟩
    · exact ⟨h1, h2⟩
  case successA s pid m =>
    unfold successRoute
    split
    · exact ⟨h1, h2⟩
    · split
      · exact ⟨h1, h2⟩
      · split
        · exact ⟨h1, h2⟩
        · split
          · exact ⟨h1, h2⟩
          next k hfk =>
            have hkmem := List.mem_of_find?_eq_some hfk
            have hprop := List.find?_some hfk
            simp only [Bool.and_eq_true, beq_iff_eq] at hprop
            split
            · exact ⟨keyInv_alloc h1, ledgerInv_alloc h1.1 hkmem hprop.2 h2⟩
            · exact ⟨keyInv_alloc h1, ledgerInv_alloc h1.1 hkmem hprop.2 h2⟩

theorem usedMono_step {db : DB} (a : Action) {i : Nat} {k : Key}
    (hf : keyOf db i = some k) (hu : k.used = true) :
    ∃ k', keyOf (step db a) i = some k' ∧ k'.used = true := by
  cases a <;> simp only [step]
  case registerA s u e p =>
    exact ⟨k, by rw [keyOf_congr (registerRoute_keys db s u e p).1]; exact hf, hu⟩
  case loginA s u c => exact ⟨k, by rw [loginRoute_db]; exact hf, hu⟩
  case logoutA s => exact ⟨k, hf, hu⟩
  case checkoutA s pid => exact ⟨k, hf, hu⟩
  case getKeyA s => exact ⟨k, hf, hu⟩
  case dashboardA s => exact ⟨k, by rw [adminDashboardRoute_db]; exact hf, hu⟩
  case addProductA s n d pr =>
    exact ⟨k, by rw [keyOf_congr (addProductRoute_keys db s n d pr).1]; exact hf, hu⟩
  case editProductA s pid n d pr =>
    exact ⟨k, by rw [keyOf_congr (editProductRoute_keys db s pid n d pr).1]; exact hf, hu⟩
  case deleteProductA s pid =>
    exact ⟨k, by rw [keyOf_congr (deleteProductRoute_keys db s pid).1]; exact hf, hu⟩
  case makeAdminA s uid =>
    exact ⟨k, by rw [keyOf_congr (makeAdminRoute_keys db s uid).1]; exact hf, hu⟩
  case uploadKeysA s pid codes =>
    unfold uploadKeysRoute
    split
    · split
      · exact ⟨k, hf, hu⟩
      · exact ⟨k, usedMono_importKeys hf, hu⟩
    · exact ⟨k, hf, hu⟩
  case successA s pid m =>
    unfold successRoute
    split
    · exact ⟨k, hf, hu⟩
    · split
      · exact ⟨k, hf, hu⟩
      · split
        · exact ⟨k, hf, hu⟩
        · split
          · exact ⟨k, hf, hu⟩
          · split
            · exact usedMono_alloc hf hu
            · exact usedMono_alloc hf hu

/-- C2: the `used` flag of a key never reverts from true to false over any
sequence of requests, and the purchase ledger never holds two rows for the
same key. -/
theorem C2_used_monotone_ledger_unique (db : DB) (acts : List Action)
    (h1 : KeyInv db) (h2 : LedgerInv db) :
    (∀ i k, keyOf db i = some k → k.used = true →
      ∃ k', keyOf (run db acts) i = some k' ∧ k'.used = true)
    ∧ ((run db acts).purchases.map Purchase.key_id).Nodup := by
  induction acts generalizing db with
  | nil => exact ⟨fun i k hf hu => ⟨k, hf, hu⟩, h2.1⟩
  | cons a rest ih =>
    obtain ⟨h1', h2'⟩ := inv_step h1 h2 a
    have IH := ih (step db a) h1' h2'
    refine ⟨?_, IH.2⟩
    intro i k hf hu
    obtain ⟨k', hf', hu'⟩ := usedMono_step a hf hu
    exact IH.1 i k' hf' hu'

theorem adminMono_step {db : DB} (a : Action) {i : Nat}
    (h : adminOf db i = some true) : adminOf (step db a) i = some true := by
  cases a <;> simp only [step]
  case loginA s u c => rw [loginRoute_db]; exact h
  case logoutA s => exact h
  case checkoutA s pid => exact h
  case getKeyA s => exact h
  case dashboardA s => rw [adminDashboardRoute_db]; exact h
  case addProductA s n d pr =>
    rw [adminOf_congr (addProductRoute_keys db s n d pr).2.2.2]
    exact h
  case editProductA s pid n d pr =>
    rw [adminOf_congr (editProductRoute_keys db s pid n d pr).2.2.2]
    exact h
  case deleteProductA s pid =>
    rw [adminOf_congr (deleteProductRoute_keys db s pid).2.2.2]
    exact h
  case uploadKeysA s pid codes =>
    rw [adminOf_congr (uploadKeysRoute_users db s pid codes)]
    exact h
  case successA s pid m =>
    rw [adminOf_congr (successRoute_users db s pid m)]
    exact h
  case registerA s u e p =>
    unfold registerRoute
    split
    · exact h
    · unfold adminOf findUser at h ⊢
      rw [Option.map_eq_some'] at h
      obtain ⟨usr, hfind, hadm⟩ := h
      rw [List.find?_append, hfind]
      simp [hadm]
  case makeAdminA s uid =>
    unfold makeAdminRoute
    split
    · split
      · exact h
      · unfold adminOf findUser at h ⊢
        rw [Option.map_eq_some'] at h
        obtain ⟨usr, hfind, hadm⟩ := h
        have hg : ∀ a2 : User,
            ((fun u2 => if u2.id == uid then { u2 with is_admin := true } else u2) a2).id
              = a2.id := by
          intro a2
          by_cases hid : (a2.id == uid) = true <;> simp [hid]
        rw [find?_map_pres User.id _ hg db.users i, hfind]
        by_cases hid : usr.id = uid <;> simp [hid, hadm]
    · exact h

theorem adminMono_run {db : DB} (acts : List Action) {i : Nat}
    (h : adminOf db i = some true) : adminOf (run db acts) i = some true := by
  induction acts generalizing db with
  | nil => exact h
  | cons a rest ih => exact ih (adminMono_step a h)

/-- C10: the admin flag is monotone: registration creates users with
`is_admin=false`, promotion is the only request that changes any user's
admin flag (and only to true), and once a user is an admin no sequence of
requests ever demotes them. -/
theorem C10_admin_flag_monotone (db : DB) :
    (∀ (acts : List Action) (i : Nat),
        adminOf db i = some true → adminOf (run db acts) i = some true)
    ∧ (∀ (s : Sess) (u e p : String) (usr : User),
        usr ∈ (registerRoute db s u e p).db.users → usr ∉ db.users →
        usr.is_admin = false)
    ∧ (∀ (a : Action) (i : Nat),
        (∀ (s : Sess) (uid : Nat), a ≠ Action.makeAdminA s uid) →
        adminOf (step db a) i = adminOf db i ∨ adminOf db i = none) := by
  refine ⟨?_, ?_, ?_⟩
  · intro acts i h
    exact adminMono_run acts h
  · intro s u e p usr hmem hnot
    unfold registerRoute at hmem
    split at hmem
    · exact absurd hmem hnot
    · rw [List.mem_append] at hmem
      rcases hmem with h1 | h2
      · exact absurd h1 hnot
      · rw [List.mem_singleton] at h2
        subst h2
        rfl
  · intro a i hne
    cases a <;> simp only [step]
    case makeAdminA s uid => exact absurd rfl (hne s uid)
    case registerA s u e p =>
      unfold registerRoute
      split
      · left; rfl
      · unfold adminOf findUser
        cases hf : db.users.find? (fun u2 => u2.id == i) with
        | some usr =>
          left
          rw [List.find?_append, hf]
          rfl
        | none =>
          right
          rfl
    case loginA s u c => left; rw [loginRoute_db]
    case logoutA s => left; rfl
    case checkoutA s pid => left; trivial
    case getKeyA s => left; trivial
    case dashboardA s => left; rw [adminDashboardRoute_db]
    case addProductA s n d pr =>
      left; rw [adminOf_congr (addProductRoute_keys db s n d pr).2.2.2]
    case editProductA s pid n d pr =>
      left; rw [adminOf_congr (editProductRoute_keys db s pid n d pr).2.2.2]
    case deleteProductA s pid =>
      left; rw [adminOf_congr (deleteProductRoute_keys db s pid).2.2.2]
    case uploadKeysA s pid codes =>
      left; rw [adminOf_congr (uploadKeysRoute_users db s pid codes)]
    case successA s pid m =>
      left; rw [adminOf_congr (successRoute_users db s pid m)]

theorem flipUsed_id (i : Nat) (a : Key) :
    ((fun k2 => if k2.id == i then { k2 with used := true } else k2) a).id = a.id := by
  by_cases hid : a.id = i <;> simp [hid]

theorem stockDec_id (i : Nat) (a : Product) :
    ((fun p => if p.id == i then { p with stock := p.stock - 1 } else p) a).id = a.id := by
  by_cases hid : a.id = i <;> simp [hid]

theorem stockBump_id (i : Nat) (a : Product) :
    ((fun p => if p.id == i then { p with stock := p.stock + 1 } else p) a).id = a.id := by
  by_cases hid : a.id = i <;> simp [hid]

theorem keyOf_alloc_self {db : DB} {user : User} {product : Product} {k : Key}
    (hnd : (db.keys.map Key.id).Nodup) (hkmem : k ∈ db.keys) :
    keyOf (allocDB db user product k) k.id = some { k with used := true } := by
  unfold keyOf allocDB
  rw [find?_map_pres Key.id _ (flipUsed_id k.id) db.keys k.id]
  rw [find?_eq_self_of_nodup Key.id hnd hkmem]
  simp

theorem keyOf_alloc_other {db : DB} {user : User} {product : Product} {k : Key}
    (i : Nat) (hi : i ≠ k.id) :
    keyOf (allocDB db user product k) i = keyOf db i := by
  unfold keyOf allocDB
  rw [find?_map_pres Key.id _ (flipUsed_id k.id) db.keys i]
  cases hf : db.keys.find? (fun k2 => k2.id == i) with
  | none => rfl
  | some k2 =>
    have hk2 : k2.id = i := by simpa using List.find?_some hf
    have hne : ¬ ((k2.id == k.id) = true) := by
      simp only [beq_iff_eq, hk2]
      exact hi
    show some (if (k2.id == k.id) = true then { k2 with used := true } else k2) = some k2
    rw [if_neg hne]

theorem productOf_alloc_self {db : DB} {user : User} {product : Product} {k : Key}
    {pid : Nat} (hp : findProduct db pid = some product) :
    productOf (allocDB db user product k) pid
      = some { product with stock := product.stock - 1 } := by
  unfold productOf allocDB
  rw [find?_map_pres Product.id _ (stockDec_id product.id) db.products pid]
  rw [show db.products.find? (fun p => p.id == pid) = some product from hp]
  simp

theorem productOf_alloc_other {db : DB} {user : User} {product : Product} {k : Key}
    (j : Nat) (hj : j ≠ product.id) :
    productOf (allocDB db user product k) j = productOf db j := by
  unfold productOf allocDB
  rw [find?_map_pres Product.id _ (stockDec_id product.id) db.products j]
  cases hf : db.products.find? (fun p => p.id == j) with
  | none => rfl
  | some p2 =>
    have hp2 : p2.id = j := by simpa using List.find?_some hf
    have hne : ¬ ((p2.id == product.id) = true) := by
      simp only [beq_iff_eq, hp2]
      exact hj
    show some (if (p2.id == product.id) = true then { p2 with stock := p2.stock - 1 } else p2)
        = some p2
    rw [if_neg hne]

theorem findAvailableKey_of_none {db : DB} {pid : Nat}
    (h : unusedCount db pid = 0) : findAvailableKey db pid = none := by
  unfold findAvailableKey
  rw [List.find?_eq_none]
  intro k hk hp
  have h0 : db.keys.countP (fun k2 => k2.product_id == pid && !k2.used) = 0 := h
  rw [List.countP_eq_zero] at h0
  apply h0 k hk
  have hp' : k.product_id = pid ∧ k.used = false := by simpa using hp
  simp [hp'.1, hp'.2]

/-- C3: finalizing a product that has no unused key flashes the
contact-support notice, redirects to the store page, sends no mail, and
leaves the database — stock counters, key inventory, purchase ledger —
completely unchanged. -/
theorem C3_exhausted_unchanged (db : DB) (s : Sess) (pid uid : Nat)
    (product : Product) (user : User) (mailOk : Bool)
    (hs : s.user_id = some uid)
    (hp : findProduct db pid = some product)
    (hu : findUser db uid = some user)
    (hzero : unusedCount db pid = 0) :
    successRoute db s pid mailOk
      = ⟨db, s, ⟨["Error: No key available. Contact support."], .redirect .index⟩,
          none⟩ := by
  have hnone := findAvailableKey_of_none hzero
  unfold successRoute
  simp only [hs, hp, hu, hnone]

theorem successRoute_reduce (db : DB) (s : Sess) (pid uid : Nat)
    (product : Product) (user : User) (k : Key) (mailOk : Bool)
    (hs : s.user_id = some uid)
    (hp : findProduct db pid = some product)
    (hu : findUser db uid = some user)
    (hk : findAvailableKey db pid = some k) :
    successRoute db s pid mailOk
      = if mailOk then
          ⟨allocDB db user product k, ⟨some uid, s.is_admin, some k.key_code⟩,
            ⟨[], .render .successPg⟩, some ⟨user.email, k.key_code, product.name⟩⟩
        else
          ⟨allocDB db user product k, s, ⟨[], .crash⟩,
            some ⟨user.email, k.key_code, product.name⟩⟩ := by
  unfold successRoute
  simp only [hs, hp, hu, hk]

/-- C4: a successful finalize marks exactly one previously-unused key of the
product as used, decrements that product's stock by exactly one and touches
no other product, appends exactly one purchase row referencing the caller,
the product and that key with a transaction nonce no earlier purchase
carries, and hands the issued key code to the notification sender. -/
theorem C4_success_allocates_once (db : DB) (s : Sess) (pid uid : Nat)
    (product : Product) (user : User) (k : Key)
    (hnd : (db.keys.map Key.id).Nodup)
    (htxn : ∀ pr ∈ db.purchases, pr.transaction_id < db.nextTxn)
    (hs : s.user_id = some uid)
    (hp : findProduct db pid = some product)
    (hu : findUser db uid = some user)
    (hk : findAvailableKey db pid = some k) :
    (k ∈ db.keys ∧ k.product_id = pid ∧ k.used = false)
    ∧ keyOf (successRoute db s pid true).db k.id = some { k with used := true }
    ∧ (∀ i, i ≠ k.id → keyOf (successRoute db s pid true).db i = keyOf db i)
    ∧ productOf (successRoute db s pid true).db pid
        = some { product with stock := product.stock - 1 }
    ∧ (∀ j, j ≠ product.id →
        productOf (successRoute db s pid true).db j = productOf db j)
    ∧ (successRoute db s pid true).db.purchases
        = db.purchases ++ [⟨db.nextPurchaseId, user.id, product.id, k.id, db.nextTxn⟩]
    ∧ (∀ pr ∈ db.purchases, pr.transaction_id ≠ db.nextTxn)
    ∧ (successRoute db s pid true).mail
        = some ⟨user.email, k.key_code, product.name⟩ := by
  have hred := successRoute_reduce db s pid uid product user k true hs hp hu hk
  rw [if_pos rfl] at hred
  have hkmem := List.mem_of_find?_eq_some hk
  have hkp : k.product_id = pid ∧ k.used = false := by simpa using List.find?_some hk
  rw [hred]
  refine ⟨⟨hkmem, hkp⟩, ?_, ?_, ?_, ?_, rfl, ?_, rfl⟩
  · exact keyOf_alloc_self hnd hkmem
  · intro i hi
    exact keyOf_alloc_other i hi
  · exact productOf_alloc_self hp
  · intro j hj
    exact productOf_alloc_other j hj
  · intro pr hpr
    have := htxn pr hpr
    omega

/-- C6: when the SMTP dispatch fails after `db.session.commit()`, the
database is exactly what it is when the dispatch succeeds — the purchase
row, the key's used flag and the decremented stock stay committed and the
issued key remains queryable through its purchase row — and the failure only
propagates as an error response. -/
theorem C6_mail_failure_no_rollback (db : DB) (s : Sess) (pid uid : Nat)
    (product : Product) (user : User) (k : Key)
    (hnd : (db.keys.map Key.id).Nodup)
    (hs : s.user_id = some uid)
    (hp : findProduct db pid = some product)
    (hu : findUser db uid = some user)
    (hk : findAvailableKey db pid = some k) :
    (successRoute db s pid false).db = (successRoute db s pid true).db
    ∧ (⟨db.nextPurchaseId, user.id, product.id, k.id, db.nextTxn⟩ : Purchase)
        ∈ (successRoute db s pid false).db.purchases
    ∧ keyOf (successRoute db s pid false).db k.id = some { k with used := true }
    ∧ productOf (successRoute db s pid false).db pid
        = some { product with stock := product.stock - 1 }
    ∧ (successRoute db s pid false).out.resp = Resp.crash := by
  have hredT := successRoute_reduce db s pid uid product user k true hs hp hu hk
  have hredF := successRoute_reduce db s pid uid product user k false hs hp hu hk
  rw [if_pos rfl] at hredT
  rw [if_neg (by simp)] at hredF
  have hkmem := List.mem_of_find?_eq_some hk
  rw [hredT, hredF]
  exact ⟨rfl, List.mem_append_right _ (List.mem_singleton.mpr rfl),
    keyOf_alloc_self hnd hkmem, productOf_alloc_self hp, rfl⟩

/-- C8: after a successful finalize the issued key code sits in the caller's
session; the first retrieval returns it and removes it from the session, and
a second retrieval gets the not-available error. -/
theorem C8_get_key_read_once (db : DB) (s : Sess) (pid uid : Nat)
    (product : Product) (user : User) (k : Key)
    (hs : s.user_id = some uid)
    (hp : findProduct db pid = some product)
    (hu : findUser db uid = some user)
    (hk : findAvailableKey db pid = some k) :
    (successRoute db s pid true).sess.purchased_key = some k.key_code
    ∧ (getKeyRoute (successRoute db s pid true).sess).2
        = ⟨[], .jsonKey k.key_code⟩
    ∧ (getKeyRoute (successRoute db s pid true).sess).1.purchased_key = none
    ∧ (getKeyRoute (getKeyRoute (successRoute db s pid true).sess).1).2
        = ⟨[], .jsonErr "No key available" 404⟩ := by
  have hred := successRoute_reduce db s pid uid product user k true hs hp hu hk
  rw [if_pos rfl] at hred
  rw [hred]
  exact ⟨rfl, rfl, rfl, rfl⟩

theorem importStep_of_fresh {d : DB} {pid : Nat} {c : String}
    (h : keyCodeExists d c = false) :
    importStep d pid c
      = { d with
          keys := d.keys ++ [⟨d.nextKeyId, pid, c, false⟩]
          nextKeyId := d.nextKeyId + 1
          products := d.products.map (fun p =>
            if p.id == pid then { p with stock := p.stock + 1 } else p) } := by
  unfold importStep
  rw [if_neg (by simp [h])]

/-- C5: an authorized import runs the per-code loop over the inventory as it
stands when each code is reached: a code that already exists anywhere in the
inventory is skipped with no change at all, and a fresh code is inserted as
an unused key of the target product with exactly that product's stock
incremented by one and nothing else touched. -/
theorem C5_import_skip_or_insert (db : DB) (s : Sess) (pid : Nat)
    (codes : List String) (product : Product)
    (hadmin : isAdminSess s = true)
    (hp : findProduct db pid = some product) :
    (uploadKeysRoute db s pid codes).db = importKeys db pid codes
    ∧ (∀ (d : DB) (c : String), keyCodeExists d c = true → importStep d pid c = d)
    ∧ (∀ (d : DB) (c : String), keyCodeExists d c = false →
        (importStep d pid c).keys = d.keys ++ [⟨d.nextKeyId, pid, c, false⟩]
        ∧ productOf (importStep d pid c) pid
            = (productOf d pid).map (fun p => { p with stock := p.stock + 1 })
        ∧ (∀ j, j ≠ pid → productOf (importStep d pid c) j = productOf d j)
        ∧ (importStep d pid c).purchases = d.purchases
        ∧ (importStep d pid c).users = d.users) := by
  refine ⟨?_, ?_, ?_⟩
  · unfold uploadKeysRoute
    simp only [if_pos hadmin, hp]
  · intro d c h
    unfold importStep
    rw [if_pos h]
  · intro d c h
    rw [importStep_of_fresh h]
    refine ⟨rfl, ?_, ?_, rfl, rfl⟩
    · unfold productOf
      rw [find?_map_pres Product.id _ (stockBump_id pid) d.products pid]
      cases hf : d.products.find? (fun p => p.id == pid) with
      | none => rfl
      | some p2 =>
        have hp2 : p2.id = pid := by simpa using List.find?_some hf
        show some (if (p2.id == pid) = true then { p2 with stock := p2.stock + 1 } else p2)
            = some { p2 with stock := p2.stock + 1 }
        rw [if_pos (by simp [hp2])]
    · intro j hj
      unfold productOf
      rw [find?_map_pres Product.id _ (stockBump_id pid) d.products j]
      cases hf : d.products.find? (fun p => p.id == j) with
      | none => rfl
      | some p2 =>
        have hp2 : p2.id = j := by simpa using List.find?_some hf
        show some (if (p2.id == pid) = true then { p2 with stock := p2.stock + 1 } else p2)
            = some p2
        rw [if_neg (by simp only [beq_iff_eq, hp2]; exact hj)]

/-- C7 (amended): every admin-gated operation given to a caller that is not
an authenticated admin redirects to the store index and mutates nothing;
the rejection is not literally identical across the six operations, because
the dashboard read additionally flashes the access-denied notice while the
other five redirect without any flash. -/
theorem C7_admin_reject_no_mutation (db : DB) (s : Sess) (pid uid : Nat)
    (n d : String) (price : Dyadic) (codes : List String)
    (h : isAdminSess s = false) :
    ((adminDashboardRoute db s).db = db
      ∧ (adminDashboardRoute db s).out = ⟨["Access denied."], .redirect .index⟩)
    ∧ ((addProductRoute db s n d price).db = db
      ∧ (addProductRoute db s n d price).out = ⟨[], .redirect .index⟩)
    ∧ ((uploadKeysRoute db s pid codes).db = db
      ∧ (uploadKeysRoute db s pid codes).out = ⟨[], .redirect .index⟩)
    ∧ ((editProductRoute db s pid n d price).db = db
      ∧ (editProductRoute db s pid n d price).out = ⟨[], .redirect .index⟩)
    ∧ ((deleteProductRoute db s pid).db = db
      ∧ (deleteProductRoute db s pid).out = ⟨[], .redirect .index⟩)
    ∧ ((makeAdminRoute db s uid).db = db
      ∧ (makeAdminRoute db s uid).out = ⟨[], .redirect .index⟩) := by
  unfold adminDashboardRoute addProductRoute uploadKeysRoute editProductRoute
    deleteProductRoute makeAdminRoute
  simp [h]

/-- A registered non-admin user. -/
def userAlice : User := ⟨1, "alice", "pbkdf2-hash", "alice@example.com", false⟩

/-- A store with one product priced 19.99 (the nearest binary64 double to
19.99, as `float('19.99')` stores it) holding one unused key. -/
def dbW : DB :=
  ⟨[userAlice], [⟨1, "Widget", "A widget key", pyFloat 1999 100, 1⟩],
   [⟨1, 1, "AAA-111", false⟩], [], 2, 2, 2, 1, 1⟩

/-- The session cookie of a logged-in non-admin caller. -/
def sessPlain : Sess := ⟨some 1, false, none⟩

/-- An admin's session cookie. -/
def sessAdmin : Sess := ⟨some 1, true, none⟩

/-- C7 (counterexample): the claim says all six admin operations reject a
non-admin caller with the same outcome; for the logged-in non-admin
`sessPlain` the dashboard rejection flashes the access-denied notice while
`add_product` rejects with no flash, so the outcomes differ. -/
theorem C7_counterexample :
    (adminDashboardRoute dbW sessPlain).out
      ≠ (addProductRoute dbW sessPlain "Game" "A game" (pyFloat 999 100)).out := by
  decide

/-- C9 (code bug): for a product priced 19.99 the checkout-initiation request
carries `unit_amount = int(19.99 * 100)` computed in binary64 floats, which
is 1998 — one minor unit short of the exact minor-unit price 1999. -/
theorem C9_unit_amount_truncated :
    (createCheckoutSessionRoute dbW sessPlain 1).2
      = some ⟨"usd", 1998, "Widget", 1⟩
    ∧ unitAmount (pyFloat 1999 100) = 1998
    ∧ (1998 : Nat) ≠ 1999 := by
  refine ⟨by decide, by decide, by decide⟩

/-- A store whose single product has no unused key left (its one key is used
and recorded in a purchase), owned by an admin user. -/
def dbUsed : DB :=
  ⟨[⟨1, "alice", "pbkdf2-hash", "alice@example.com", true⟩],
   [⟨1, "Widget", "A widget key", pyFloat 999 100, 0⟩],
   [⟨1, 1, "AAA-111", true⟩], [⟨1, 1, 1, 1, 0⟩], 2, 2, 2, 2, 1⟩

/-- Witness for C1 at a concrete store. -/
theorem C1_witness :
    StockInv (uploadKeysRoute dbW sessAdmin 1 ["BBB-222"]).db
    ∧ StockInv (successRoute dbW sessAdmin 1 true).db
    ∧ StockInv (deleteProductRoute dbW sessAdmin 1).db :=
  C1_stock_inv_preserved dbW sessAdmin 1 ["BBB-222"] true (by decide)
    (by unfold StockInv; decide)

/-- Witness for C2 at a concrete store and request sequence. -/
theorem C2_witness :
    (∃ k', keyOf (run dbUsed
        [Action.uploadKeysA sessAdmin 1 ["BBB-222"],
         Action.successA sessAdmin 1 true]) 1 = some k' ∧ k'.used = true)
    ∧ ((run dbUsed
        [Action.uploadKeysA sessAdmin 1 ["BBB-222"],
         Action.successA sessAdmin 1 true]).purchases.map Purchase.key_id).Nodup := by
  have h := C2_used_monotone_ledger_unique dbUsed
    [Action.uploadKeysA sessAdmin 1 ["BBB-222"], Action.successA sessAdmin 1 true]
    (by unfold KeyInv; decide) (by unfold LedgerInv; decide)
  exact ⟨h.1 1 ⟨1, 1, "AAA-111", true⟩ rfl rfl, h.2⟩

/-- Witness for C3 at a concrete store with no unused key. -/
theorem C3_witness :
    successRoute dbUsed sessPlain 1 true
      = ⟨dbUsed, sessPlain,
          ⟨["Error: No key available. Contact support."], .redirect .index⟩, none⟩ :=
  C3_exhausted_unchanged dbUsed sessPlain 1 1
    ⟨1, "Widget", "A widget key", pyFloat 999 100, 0⟩
    ⟨1, "alice", "pbkdf2-hash", "alice@example.com", true⟩ true rfl rfl rfl (by decide)

/-- Witness for C4 at a concrete store. -/
theorem C4_witness :
    keyOf (successRoute dbW sessPlain 1 true).db 1 = some ⟨1, 1, "AAA-111", true⟩
    ∧ (successRoute dbW sessPlain 1 true).mail
        = some ⟨"alice@example.com", "AAA-111", "Widget"⟩ := by
  have h := C4_success_allocates_once dbW sessPlain 1 1
    ⟨1, "Widget", "A widget key", pyFloat 1999 100, 1⟩ userAlice
    ⟨1, 1, "AAA-111", false⟩ (by decide) (by decide) rfl rfl rfl rfl
  exact ⟨h.2.1, h.2.2.2.2.2.2.2⟩

/-- Witness for C5 at a concrete store: "AAA-111" already exists, "BBB-222"
is fresh. -/
theorem C5_witness :
    (uploadKeysRoute dbW sessAdmin 1 ["AAA-111", "BBB-222"]).db
        = importKeys dbW 1 ["AAA-111", "BBB-222"]
    ∧ importStep dbW 1 "AAA-111" = dbW
    ∧ (importStep dbW 1 "BBB-222").keys = dbW.keys ++ [⟨2, 1, "BBB-222", false⟩] := by
  have h := C5_import_skip_or_insert dbW sessAdmin 1 ["AAA-111", "BBB-222"]
    ⟨1, "Widget", "A widget key", pyFloat 1999 100, 1⟩ rfl rfl
  exact ⟨h.1, h.2.1 dbW "AAA-111" (by decide), (h.2.2 dbW "BBB-222" (by decide)).1⟩

/-- Witness for C6 at a concrete store. -/
theorem C6_witness :
    (successRoute dbW sessPlain 1 false).db = (successRoute dbW sessPlain 1 true).db
    ∧ (successRoute dbW sessPlain 1 false).out.resp = Resp.crash := by
  have h := C6_mail_failure_no_rollback dbW sessPlain 1 1
    ⟨1, "Widget", "A widget key", pyFloat 1999 100, 1⟩ userAlice
    ⟨1, 1, "AAA-111", false⟩ (by decide) rfl rfl rfl rfl
  exact ⟨h.1, h.2.2.2.2⟩

/-- Witness for C7 (amended) at a concrete store and non-admin session. -/
theorem C7_witness :
    (adminDashboardRoute dbW sessPlain).db = dbW
    ∧ (makeAdminRoute dbW sessPlain 1).out = ⟨[], .redirect .index⟩ := by
  have h := C7_admin_reject_no_mutation dbW sessPlain 1 1 "Game" "A game"
    (pyFloat 999 100) ["XYZ"] rfl
  exact ⟨h.1.1, h.2.2.2.2.2.2⟩

/-- Witness for C8 at a concrete store. -/
theorem C8_witness :
    (successRoute dbW sessPlain 1 true).sess.purchased_key = some "AAA-111"
    ∧ (getKeyRoute (getKeyRoute (successRoute dbW sessPlain 1 true).sess).1).2
        = ⟨[], .jsonErr "No key available" 404⟩ := by
  have h := C8_get_key_read_once dbW sessPlain 1 1
    ⟨1, "Widget", "A widget key", pyFloat 1999 100, 1⟩ userAlice
    ⟨1, 1, "AAA-111", false⟩ rfl rfl rfl rfl
  exact ⟨h.1, h.2.2.2⟩

/-- Witness for C10 at a concrete store with an admin user. -/
theorem C10_witness :
    adminOf (run dbUsed [Action.logoutA sessPlain]) 1 = some true
    ∧ (⟨2, "bob", "h2", "bob@example.com", false⟩ : User).is_admin = false
    ∧ (adminOf (step dbUsed (Action.logoutA sessPlain)) 1 = adminOf dbUsed 1
        ∨ adminOf dbUsed 1 = none) := by
  have h := C10_admin_flag_monotone dbUsed
  refine ⟨h.1 [Action.logoutA sessPlain] 1 (by decide), ?_, ?_⟩
  · exact h.2.1 sessPlain "bob" "bob@example.com" "h2"
      ⟨2, "bob", "h2", "bob@example.com", false⟩ (by decide) (by decide)
  · exact h.2.2 (Action.logoutA sessPlain) 1 (fun s2 uid2 h2 => Action.noConfusion h2)

end CDKeyStore
